import Mathlib

/-
Verification of the command-line request builder of go-btfs-cmds (package `cli`,
file `parse.go`).  The Go source is embedded shallowly: maps become association
lists, `*os.File` handles become explicit option types, the filesystem becomes an
explicit record of (pure) stat/cwd/symlink functions, and the mutable cursor of
the token walk becomes structural recursion over the remaining token list.
-/

set_option autoImplicit false

namespace BtfsCli

/-- A typed option value (`interface{}` values stored in `cmdkit.OptMap`). -/
inductive Value where
  | bool (b : Bool)
  | str (s : String)
  | int (i : Int)
  deriving DecidableEq, Repr

/-- The `kv` pair produced by `parseShortOpts`. -/
structure KV where
  key : String
  value : Value
  deriving DecidableEq, Repr

/-- An option definition (`cmdkit.Option`): the list of alias names (the first
one is the canonical name returned by `Name()` and `Names()[0]`), whether the
option is of boolean type, the fallible value parser `Parse`, and a declared
default value (used by `Request.FillDefaults`). -/
structure OptDef where
  names : List String
  isBool : Bool
  parseVal : String → Except String Value
  defaultVal : Option Value

/-- Canonical name of an option: its first declared alias (`Option.Name()`). -/
def OptDef.name (od : OptDef) : String :=
  od.names.headD ""

/-- The option table visible at a command path (`map[string]cmdkit.Option`),
keyed by every alias. -/
abbrev OptTable := List (String × OptDef)

/-- Map lookup in an option table. -/
def OptTable.lookup (t : OptTable) (k : String) : Option OptDef :=
  List.lookup k t

/-- The kind of an argument slot (`cmdkit.ArgString` / `cmdkit.ArgFile`). -/
inductive ArgType where
  | string
  | file
  deriving DecidableEq, Repr

/-- An argument-slot definition (`cmdkit.Argument`). -/
structure ArgDef where
  name : String
  type : ArgType
  required : Bool
  variadic : Bool
  supportsStdin : Bool
  recursive : Bool
  deriving DecidableEq, Repr

/-- An OS-level file status, as returned by `os.Lstat`. -/
structure Stat where
  isDir : Bool
  deriving DecidableEq, Repr

/-- A file node (`files.Node`): a serial filesystem entry (file, or directory
tree when its stat is a directory), a reader-backed node built over standard
input (`files.NewReaderPathFile`), a web resource (`files.NewWebFile`), or the
map directory assembled at the end of `parseArgs`. -/
inductive FileNode where
  | serial (path : String) (hidden : Bool) (stat : Stat)
  | readerPath (path : String)
  | web (url : String)
  | mapDir (entries : List (String × FileNode))

/-- A command-tree node (`cmds.Command`): named subcommands, the `External`
flag, the ordered argument-slot definitions, the declared options, and the
names of the encodings for which the command declares a non-nil encoder
(`none` models a nil `Encoders` map). -/
inductive Cmd where
  | mk : List (String × Cmd) → Bool → List ArgDef → List OptDef → Option (List String) → Cmd

/-- The `Subcommands` map of a command. -/
def Cmd.subcommands : Cmd → List (String × Cmd)
  | .mk s _ _ _ _ => s

/-- The `External` flag of a command. -/
def Cmd.external : Cmd → Bool
  | .mk _ e _ _ _ => e

/-- The `Arguments` slot list of a command. -/
def Cmd.arguments : Cmd → List ArgDef
  | .mk _ _ a _ _ => a

/-- The `Options` declared on a command itself. -/
def Cmd.options : Cmd → List OptDef
  | .mk _ _ _ o _ => o

/-- The encoder names of a command (`none` models a nil `Encoders` map). -/
def Cmd.encoders : Cmd → Option (List String)
  | .mk _ _ _ _ e => e

/-- Lookup of a child command (`cmd.Subcommands[arg]`, nil when absent). -/
def Cmd.findSub (c : Cmd) (name : String) : Option Cmd :=
  (c.subcommands.find? (fun p => p.1 == name)).map (fun p => p.2)

/-- The option-value map of a request (`cmdkit.OptMap`), from canonical option
name to typed value. -/
abbrev OptMap := List (String × Value)

/-- Map lookup in an option map. -/
def OptMap.lookup (m : OptMap) (k : String) : Option Value :=
  List.lookup k m

/-- Map insertion (`m[k] = v`): replaces the binding of `k` when present. -/
def assocInsert {α : Type} : List (String × α) → String → α → List (String × α)
  | [], k, v => [(k, v)]
  | (k', v') :: rest, k, v =>
    if k' == k then (k, v) :: rest else (k', v') :: assocInsert rest k v

/-- The errors `parse`, `parseArgs` and their helpers can return. -/
inductive ParseErr where
  | unknownOption (name : String)
  | multipleValues (name : String)
  | missingArgument (name : String)
  | invalidValue (msg : String)
  | suggestions (args : List String) (root : Cmd)
  | argRequired (name : String)
  | dirNotSupported (path : String) (argName : String)
  | notRecursive (path : String)
  | fsError (msg : String)
  | getOptionsFailed (path : List String)
  | nilCommand

/-- The fields of `cmds.Request` that this core reads and writes.  `cmd` and
`root` are `none` on the fresh request `&cmds.Request{Context: ctx}`. -/
structure Request where
  path : List String
  arguments : List String
  options : OptMap
  cmd : Option Cmd
  root : Option Cmd
  files : Option FileNode

/-- The fresh request allocated at the top of `Parse`. -/
def emptyRequest : Request :=
  ⟨[], [], [], none, none, none⟩

/-- The data `parse` accumulates and stores into the request on success. -/
structure ParseResult where
  path : List String
  args : List String
  opts : OptMap
  cmd : Cmd

/-- A standard-input handle (`*os.File`): its `Name()`, and whether the
`Stat` call made by `isTty` fails. -/
structure Stdin where
  name : String
  statErr : Bool
  deriving DecidableEq, Repr

/-- The ambient filesystem used while resolving file arguments: `os.Lstat`,
`os.Getwd`, `filepath.EvalSymlinks` and `filepath.ToSlash ∘ filepath.Clean`
(paths are modelled slash-separated, so `ToSlash` is folded into the record). -/
structure FS where
  lstat : String → Except String Stat
  getwd : Except String String
  evalSymlinks : String → Except String String
  clean : String → String

/-- Character-level `strings.HasPrefix`: whether the token starts with the
given characters. -/
def hasPrefixChars (s : String) (pre : List Char) : Bool :=
  pre.isPrefixOf s.toList

/-- Character-level Go string slicing `s[n:]` (the tokens handled here are
ASCII, so byte and character offsets coincide). -/
def dropStr (s : String) (n : Nat) : String :=
  String.mk (s.toList.drop n)

/-- Splitting of a character list at the first `=` (the character-level core of
`strings.SplitN(opt, "=", 2)`): `some (k, v)` when an `=` occurs. -/
def splitkvChars : List Char → Option (List Char × List Char)
  | [] => none
  | c :: rest =>
    if c = '=' then some ([], rest)
    else (splitkvChars rest).map (fun p => (c :: p.1, p.2))

/-- The source's `splitkv`: split an option token body at the first `=`,
returning `(key, value, ok)`. -/
def splitkv (opt : String) : String × String × Bool :=
  match splitkvChars opt.toList with
  | some (k, v) => (String.mk k, String.mk v, true)
  | none => (opt, "", false)

/-- The source's `parseOpt`: look the name up in the visible option table and
run the option's value parser on the raw string. -/
def parseOpt (opt value : String) (opts : OptTable) : Except ParseErr Value :=
  match opts.lookup opt with
  | none => .error (.unknownOption opt)
  | some optDef =>
    match optDef.parseVal value with
    | .error e => .error (.invalidValue e)
    | .ok v => .ok v

/-- The source's `parseState.parseLongOpt`, for a token `--body` with `rest`
the tokens after it.  Returns the alias used, the parsed value, and whether
the next token was consumed as the value (the `st.i++` look-ahead). -/
def parseLongOpt (body : String) (rest : List String) (optDefs : OptTable) :
    Except ParseErr (String × Value × Bool) :=
  match splitkv body with
  | (k, v, true) => (parseOpt k v optDefs).map (fun val => (k, val, false))
  | (k, _, false) =>
    match optDefs.lookup k with
    | none => .error (.unknownOption k)
    | some optDef =>
      if optDef.isBool then .ok (k, .bool true, false)
      else
        match rest with
        | v :: _ => (parseOpt k v optDefs).map (fun val => (k, val, true))
        | [] => .error (.missingArgument k)

/-- The last-character value-bearing case of the short-flag scan: consume the
next whole token as the value (`st.i++`), failing when none exists. -/
def shortValueFromNext (optDefs : OptTable) (fullK flag : String) :
    List String → Except ParseErr (List KV × Bool)
  | next :: _ =>
    match parseOpt flag next optDefs with
    | .error e => .error e
    | .ok v => .ok ([⟨flag, v⟩], true)
  | [] => .error (.missingArgument fullK)

/-- The character-scanning loop of `parseShortOpts` (`LOOP` over `k[j:j+1]`):
`fullK` is the whole flag-group (used in error messages), `rest` the tokens
after the current one.  Returns the recorded pairs and whether the next token
was consumed as a value. -/
def shortFlagsLoop (optDefs : OptTable) (fullK : String) (rest : List String) :
    List Char → Except ParseErr (List KV × Bool)
  | [] => .ok ([], false)
  | c :: cs =>
    let flag := String.mk [c]
    match optDefs.lookup flag with
    | none => .error (.unknownOption fullK)
    | some od =>
      if od.isBool then
        match shortFlagsLoop optDefs fullK rest cs with
        | .error e => .error e
        | .ok (kvs, used) => .ok (⟨flag, .bool true⟩ :: kvs, used)
      else if cs.isEmpty then shortValueFromNext optDefs fullK flag rest
      else
        match parseOpt flag (String.mk cs) optDefs with
        | .error e => .error e
        | .ok v => .ok ([⟨flag, v⟩], false)

/-- The source's `parseState.parseShortOpts`, for a token `-body` with `rest`
the tokens after it. -/
def parseShortOpts (body : String) (rest : List String) (optDefs : OptTable) :
    Except ParseErr (List KV × Bool) :=
  match splitkv body with
  | (k, vStr, true) =>
    match parseOpt k vStr optDefs with
    | .error e => .error e
    | .ok v => .ok ([⟨k, v⟩], false)
  | (k, _, false) => shortFlagsLoop optDefs k rest k.toList

/-- Aliases-to-definition table of a list of option definitions, keyed by
every declared name. -/
def optionsTable (opts : List OptDef) : OptTable :=
  opts.foldr (fun od acc => od.names.map (fun n => (n, od)) ++ acc) []

/-- Modelled from the spec: `cmds.Command.GetOptions` lives outside these
sources; per §2 the option table for a path holds all options inherited from
the root down to the resolved command, keyed by every accepted alias, and the
aliases are unique along a valid path.  `none` when a path component names no
child. -/
def Cmd.getOptions : Cmd → List String → Option OptTable
  | c, [] => some (optionsTable c.options)
  | c, name :: rest =>
    match c.findSub name with
    | none => none
    | some sub => (Cmd.getOptions sub rest).map (fun tbl => optionsTable c.options ++ tbl)

/-- Canonicalization and duplicate check the `parse` loop applies to the pairs
returned by `parseShortOpts` (`kv.Key = optDefs[kv.Key].Names()[0]` before the
`exists` check).  The `none` canonicalization branch is unreachable: a
successful `parseShortOpts` only returns keys present in the table (Go would
dereference a nil interface there). -/
def insertShortKvs (optDefs : OptTable) : OptMap → List KV → Except ParseErr OptMap
  | opts, [] => .ok opts
  | opts, kv :: rest =>
    let canon :=
      match optDefs.lookup kv.key with
      | some od => od.name
      | none => kv.key
    if (opts.lookup canon).isSome then .error (.multipleValues canon)
    else insertShortKvs optDefs (assocInsert opts canon kv.value) rest

/-- The token-walk loop of the source's `parse` (label `L`).  The cursor is the
remaining token list; the fuel argument only bounds the recursion and is
chosen `≥` the list length by the caller (each iteration consumes at least the
head token, so the fuel-exhausted branch is unreachable from `parse`). -/
def parseGo (root : Cmd) :
    Nat → List String → Cmd → OptTable → List String → List String → OptMap →
    Except ParseErr ParseResult
  | _, [], cmd, _, path, args, opts => .ok ⟨path, args, opts, cmd⟩
  | 0, _ :: _, cmd, _, path, args, opts => .ok ⟨path, args, opts, cmd⟩
  | fuel + 1, param :: rest, cmd, optDefs, path, args, opts =>
    if param = "--" then
      .ok ⟨path, args ++ rest, opts, cmd⟩
    else if hasPrefixChars param ['-', '-'] then
      match parseLongOpt (dropStr param 2) rest optDefs with
      | .error e => .error e
      | .ok (k, v, usedNext) =>
        if (opts.lookup k).isSome then .error (.multipleValues k)
        else
          let canon :=
            match optDefs.lookup k with
            | some od => od.name
            | none => k
          parseGo root fuel (if usedNext then rest.drop 1 else rest) cmd optDefs
            path args (assocInsert opts canon v)
    else if hasPrefixChars param ['-'] && param != "-" then
      match parseShortOpts (dropStr param 1) rest optDefs with
      | .error e => .error e
      | .ok (kvs, usedNext) =>
        match insertShortKvs optDefs opts kvs with
        | .error e => .error e
        | .ok opts' =>
          parseGo root fuel (if usedNext then rest.drop 1 else rest) cmd optDefs
            path args opts'
    else
      match cmd.findSub param with
      | some sub =>
        match root.getOptions (path ++ [param]) with
        | none => .error (.getOptionsFailed (path ++ [param]))
        | some optDefs' =>
          if sub.external then .ok ⟨path ++ [param], args ++ rest, opts, sub⟩
          else parseGo root fuel rest sub optDefs' (path ++ [param]) args opts
      | none =>
        if path.isEmpty then .error (.suggestions (args ++ [param]) root)
        else parseGo root fuel rest cmd optDefs path (args ++ [param]) opts

/-- The source's `parse`: walk the command line from the root, returning the
accumulated path, positional arguments, options and resolved command that it
stores into the request on success. -/
def parse (cmdline : List String) (root : Cmd) : Except ParseErr ParseResult :=
  match root.getOptions [] with
  | none => .error (.getOptionsFailed [])
  | some optDefs => parseGo root cmdline.length cmdline root optDefs [] [] []

/-- Modelled from the spec: the option-name constants (`cmds.EncLong`,
`cmds.RecLong`, `cmds.Hidden`, `cmds.StdinName`, `cmds.DerefLong`, and the
encoding names `cmds.Text` / `cmds.JSON`) are declared outside these sources;
§6 lists the runtime options this core interprets directly. -/
def encLong : String := "encoding"

/-- The canonical name of the runtime recursion option (`cmds.RecLong`). -/
def recLong : String := "recursive"

/-- The canonical name of the hidden-files option (`cmds.Hidden`). -/
def hiddenLong : String := "hidden"

/-- The canonical name of the stdin-name option (`cmds.StdinName`). -/
def stdinNameOpt : String := "stdin-name"

/-- The canonical name of the symlink-dereferencing option (`cmds.DerefLong`). -/
def derefLong : String := "dereference-args"

/-- The text encoding name (`cmds.Text`). -/
def textEnc : String := "text"

/-- The JSON encoding name (`cmds.JSON`). -/
def jsonEnc : String := "json"

/-- The source's `isHidden`: the `hidden` option, when set to a boolean. -/
def isHidden (req : Request) : Bool :=
  match req.options.lookup hiddenLong with
  | some (.bool b) => b
  | _ => false

/-- The source's `isRecursive`: the `recursive` option, when set to a boolean. -/
def isRecursive (req : Request) : Bool :=
  match req.options.lookup recLong with
  | some (.bool b) => b
  | _ => false

/-- The source's `stdinName`: the `stdin-name` option, when set to a string. -/
def stdinName (req : Request) : String :=
  match req.options.lookup stdinNameOpt with
  | some (.str s) => s
  | _ => ""

/-- The source's `getArgDef`: the `i`-th slot definition, clamped to the last
one past the end; `none` only when there are no definitions at all. -/
def getArgDef (i : Nat) (argDefs : List ArgDef) : Option ArgDef :=
  match argDefs[i]? with
  | some a => some a
  | none => argDefs.getLast?

/-- The source's `maybeWrapStdin` on a possibly-nil handle: `isTty` stats the
handle, failing on a nil handle (`os.ErrInvalid`) or when the handle's `Stat`
fails; the interactive message wrapper does not change the bytes read, so the
successful result is the handle itself. -/
def maybeWrapStdin : Option Stdin → Except ParseErr Stdin
  | none => .error (.fsError "invalid argument")
  | some s => if s.statErr then .error (.fsError "stat error") else .ok s

/-- The source's `isURL`, modelling `net/url.Parse` on the two accepted
schemes: an `http://` or `https://` token with a non-empty host. -/
def isURL (p : String) : Option String :=
  if hasPrefixChars p "http://".toList then
    if ((p.toList.drop 7).takeWhile (fun c => c ≠ '/')).isEmpty then none else some p
  else if hasPrefixChars p "https://".toList then
    if ((p.toList.drop 8).takeWhile (fun c => c ≠ '/')).isEmpty then none else some p
  else none

/-- Go's `path.Base`: the last element of a slash-separated path, after
dropping trailing slashes; `"."` for the empty string, `"/"` for all-slash
paths. -/
def baseName (p : String) : String :=
  if p = "" then "."
  else
    let chars := (p.toList.reverse.dropWhile (fun c => c = '/'))
    if chars.isEmpty then "/"
    else String.mk (chars.takeWhile (fun c => c ≠ '/')).reverse

/-- Message key of the `dirNotSupportedFmtStr` error. -/
def dirNotSupportedErr (fpath argName : String) : ParseErr :=
  .dirNotSupported fpath argName

/-- The source's `appendFile`: `Lstat` the path (not following symlinks); a
directory is rejected unless the slot's `Recursive` flag is set, and then
unless the runtime recursion option was passed; otherwise a serial file node
is built over the entry (a directory tree when the stat is a directory). -/
def appendFile (fs : FS) (fpath : String) (argDef : ArgDef) (recursive hidden : Bool) :
    Except ParseErr FileNode :=
  match fs.lstat fpath with
  | .error e => .error (.fsError e)
  | .ok stat =>
    if stat.isDir then
      if !argDef.recursive then .error (dirNotSupportedErr fpath argDef.name)
      else if !recursive then .error (.notRecursive fpath)
      else .ok (.serial fpath hidden stat)
    else .ok (.serial fpath hidden stat)

/-- The mutable state of the distribution loop in `parseArgs`. -/
structure DistState where
  stringArgs : List String
  fileArgs : List (String × FileNode)
  iArgDef : Nat
  remRequired : Nat
  inputs : List String
  stdin : Option Stdin

/-- The skip loop of `parseArgs` (`for remInputs <= remRequired &&
!argDef.Required`): advance `iArgDef` past optional definitions while the
remaining inputs are reserved for required slots.  Once `iArgDef` passes the
end of the list the looked-up definition no longer changes, so the Go loop
either exits at once or never; the latter cannot arise from `parseArgs`
(every required slot before `iArgDef` has already been counted), and the fuel
passed by `distribute` covers every terminating run. -/
def skipOptional (argDefs : List ArgDef) (remInputs remRequired : Nat) :
    Nat → Nat → Nat
  | 0, iArgDef => iArgDef
  | fuel + 1, iArgDef =>
    match getArgDef iArgDef argDefs with
    | none => iArgDef
    | some argDef =>
      if remInputs ≤ remRequired ∧ argDef.required = false then
        skipOptional argDefs remInputs remRequired fuel (iArgDef + 1)
      else iArgDef

/-- The lookup `req.Options[cmds.DerefLong].(bool)` with a dropped `ok`. -/
def derefArgsOpt (req : Request) : Bool :=
  match req.options.lookup derefLong with
  | some (.bool b) => b
  | _ => false

/-- Filesystem resolution of a cleaned file-argument path before `appendFile`:
the current-directory marker is replaced by the working directory and (by
`fallthrough`) dereferenced; otherwise symlinks are dereferenced only under
the `dereference-args` option. -/
def resolveFilePath (fs : FS) (req : Request) (fpath : String) : Except ParseErr String :=
  if fpath = "." then
    match fs.getwd with
    | .error e => .error (.fsError e)
    | .ok cwd =>
      match fs.evalSymlinks cwd with
      | .error e => .error (.fsError e)
      | .ok p => .ok p
  else if derefArgsOpt req then
    match fs.evalSymlinks fpath with
    | .error e => .error (.fsError e)
    | .ok p => .ok p
  else .ok fpath

/-- The input-consuming loop of `parseArgs` (`for iInput := 0; iInput <
numInputs; iInput++`), run with the countdown `n = numInputs - iInput`, so
that `remInputs = n` inside each iteration.  The `none` slot branch is
unreachable: the loop only runs when slots exist (the too-many-arguments check
already fired otherwise); Go would dereference a nil pointer there. -/
def distribute (fs : FS) (req : Request) (argDefs : List ArgDef) :
    Nat → DistState → Except ParseErr DistState
  | 0, st => .ok st
  | n + 1, st =>
    let remInputs := n + 1
    let iAD := skipOptional argDefs remInputs st.remRequired (argDefs.length + 1) st.iArgDef
    match getArgDef iAD argDefs with
    | none => .ok st
    | some argDef =>
      let remRequired := if argDef.required then st.remRequired - 1 else st.remRequired
      let fillingVariadic := decide (iAD + 1 > argDefs.length)
      match argDef.type with
      | .string =>
        match st.inputs with
        | x :: restInputs =>
          distribute fs req argDefs n
            { st with stringArgs := st.stringArgs ++ [x], inputs := restInputs,
                      iArgDef := iAD + 1, remRequired := remRequired }
        | [] =>
          match st.stdin with
          | some s =>
            if argDef.supportsStdin && !fillingVariadic then
              if s.statErr then
                distribute fs req argDefs n
                  { st with iArgDef := iAD + 1, remRequired := remRequired }
              else
                distribute fs req argDefs n
                  { st with fileArgs := assocInsert st.fileArgs "stdin" (.readerPath s.name),
                            stdin := none, iArgDef := iAD + 1, remRequired := remRequired }
            else
              distribute fs req argDefs n
                { st with iArgDef := iAD + 1, remRequired := remRequired }
          | none =>
            distribute fs req argDefs n
              { st with iArgDef := iAD + 1, remRequired := remRequired }
      | .file =>
        match st.inputs with
        | fpath :: restInputs =>
          if fpath = "-" then
            match maybeWrapStdin st.stdin with
            | .error e => .error e
            | .ok s =>
              distribute fs req argDefs n
                { st with inputs := restInputs,
                          fileArgs := assocInsert st.fileArgs (stdinName req) (.readerPath s.name),
                          iArgDef := iAD + 1, remRequired := remRequired }
          else
            match isURL fpath with
            | some u =>
              distribute fs req argDefs n
                { st with inputs := restInputs,
                          fileArgs := assocInsert st.fileArgs fpath (.web u),
                          iArgDef := iAD + 1, remRequired := remRequired }
            | none =>
              match resolveFilePath fs req (fs.clean fpath) with
              | .error e => .error e
              | .ok fpath' =>
                match appendFile fs fpath' argDef (isRecursive req) (isHidden req) with
                | .error e => .error e
                | .ok nf =>
                  distribute fs req argDefs n
                    { st with inputs := restInputs,
                              fileArgs := assocInsert st.fileArgs (baseName fpath') nf,
                              iArgDef := iAD + 1, remRequired := remRequired }
        | [] =>
          match st.stdin with
          | some s =>
            if argDef.supportsStdin && argDef.required && !fillingVariadic then
              if s.statErr then .error (.fsError "stat error")
              else
                distribute fs req argDefs n
                  { st with fileArgs := assocInsert st.fileArgs (stdinName req) (.readerPath s.name),
                            iArgDef := iAD + 1, remRequired := remRequired }
            else
              distribute fs req argDefs n
                { st with iArgDef := iAD + 1, remRequired := remRequired }
          | none =>
            distribute fs req argDefs n
              { st with iArgDef := iAD + 1, remRequired := remRequired }

/-- Whether the last slot definition is variadic (false when there are none). -/
def lastVariadic (argDefs : List ArgDef) : Bool :=
  match argDefs.getLast? with
  | some a => a.variadic
  | none => false

/-- Whether the last slot definition supports standard input. -/
def lastSupportsStdin (argDefs : List ArgDef) : Bool :=
  match argDefs.getLast? with
  | some a => a.supportsStdin
  | none => false

/-- The post-loop adjustment of `parseArgs` (`if iArgDef == len(argDefs)-1 &&
stdin != nil && req.Command.Arguments[iArgDef].SupportsStdin { iArgDef++ }`);
`iArgDef + 1 = length` renders the Go `int` equation `iArgDef == len-1`
faithfully also for an empty list. -/
def stdinPostLoopAdjust (argDefs : List ArgDef) (stdin : Option Stdin) (iArgDef : Nat) : Nat :=
  if iArgDef + 1 = argDefs.length ∧ stdin.isSome = true then
    match argDefs[iArgDef]? with
    | some a => if a.supportsStdin then iArgDef + 1 else iArgDef
    | none => iArgDef
  else iArgDef

/-- The final required-argument check of `parseArgs`: the first required slot
definition at or after `iArgDef`, if any. -/
def missingRequired (argDefs : List ArgDef) (iArgDef : Nat) : Option ArgDef :=
  (argDefs.drop iArgDef).find? (fun a => a.required)

/-- The source's `parseArgs` on an explicit resolved command (`req.Command`).
Counts required slots, adds the stdin pseudo-input, rejects excess positional
tokens for a non-variadic tail, runs the distribution loop, applies the
post-loop stdin adjustment and the required check, and stores the results into
the request (the file map only when non-empty). -/
def parseArgsCmd (fs : FS) (req : Request) (cmd root : Cmd) (stdin : Option Stdin) :
    Except ParseErr Request :=
  let argDefs := cmd.arguments
  let numRequired := (argDefs.filter (fun a => a.required)).length
  let inputs := req.arguments
  let numInputs :=
    inputs.length +
      (if 0 < argDefs.length ∧ lastSupportsStdin argDefs = true ∧ stdin.isSome = true
       then 1 else 0)
  let notVariadic := argDefs.isEmpty || !lastVariadic argDefs
  if notVariadic = true ∧ inputs.length > argDefs.length then
    .error (.suggestions inputs root)
  else
    match distribute fs req argDefs numInputs ⟨[], [], 0, numRequired, inputs, stdin⟩ with
    | .error e => .error e
    | .ok st =>
      let iArgDef := stdinPostLoopAdjust argDefs st.stdin st.iArgDef
      match missingRequired argDefs iArgDef with
      | some a => .error (.argRequired a.name)
      | none =>
        let req' := { req with arguments := st.stringArgs }
        if 0 < st.fileArgs.length then .ok { req' with files := some (.mapDir st.fileArgs) }
        else .ok req'

/-- The source's `parseArgs`: reads the resolved command off the request.  The
`nilCommand` branch is unreachable from `Parse` (a successful `parse` always
sets the command; Go would dereference a nil pointer there). -/
def parseArgs (fs : FS) (req : Request) (root : Cmd) (stdin : Option Stdin) :
    Except ParseErr Request :=
  match req.cmd with
  | some cmd => parseArgsCmd fs req cmd root stdin
  | none => .error .nilCommand

/-- One pass of default filling over the alias-keyed table: insert the
declared default of every option whose canonical name is not yet set. -/
def fillDefaultsFrom : OptTable → OptMap → OptMap
  | [], opts => opts
  | (_, od) :: rest, opts =>
    match opts.lookup od.name, od.defaultVal with
    | none, some v => fillDefaultsFrom rest (assocInsert opts od.name v)
    | _, _ => fillDefaultsFrom rest opts

/-- Modelled from the spec: `cmds.Request.FillDefaults` lives outside these
sources.  Per §3 each option definition carries a typed value; this fills the
declared default of every option visible at the request's path whose canonical
name was not set by the command line, failing only when the path cannot be
resolved against the root. -/
def fillDefaults (root : Cmd) (req : Request) : Except ParseErr Request :=
  match root.getOptions req.path with
  | none => .error (.getOptionsFailed req.path)
  | some tbl => .ok { req with options := fillDefaultsFrom tbl req.options }

/-- The request fields the source's `parse` stores on success (lines setting
`req.Root`, `req.Command`, `req.Path`, `req.Arguments`, `req.Options`). -/
def requestOfResult (root : Cmd) (pr : ParseResult) : Request :=
  ⟨pr.path, pr.args, pr.opts, some pr.cmd, some root, none⟩

/-- Whether the resolved command declares a text encoder
(`req.Command.Encoders != nil && req.Command.Encoders[cmds.Text] != nil`). -/
def Request.hasTextEncoder (req : Request) : Bool :=
  match req.cmd with
  | some c =>
    match c.encoders with
    | some es => es.contains textEnc
    | none => false
  | none => false

/-- The encoding-defaulting step at the end of `Parse`: when the encoding
option holds the empty string (the Go comparison `enc == ""` of an
`interface{}` value is true only for an empty string value), replace it with
the text encoding if the command has a text encoder and with JSON otherwise;
any other value, including an absent one, is left alone. -/
def encodingDefault (req : Request) : Request :=
  match req.options.lookup encLong with
  | some (.str s) =>
    if s = "" then
      if req.hasTextEncoder then
        { req with options := assocInsert req.options encLong (.str textEnc) }
      else
        { req with options := assocInsert req.options encLong (.str jsonEnc) }
    else req
  | _ => req

/-- The bootstrap-specific stdin discard inside `Parse` ("an ugly hack to
maintain our current CLI interface"): for `bootstrap add --default` and
`bootstrap rm --all` the handle is dropped before argument distribution. -/
def bootstrapStdinHack (req : Request) (stdin : Option Stdin) : Option Stdin :=
  if (req.path = ["bootstrap", "add"] ∧ req.options.lookup "default" = some (.bool true)) ∨
     (req.path = ["bootstrap", "rm"] ∧ req.options.lookup "all" = some (.bool true)) then
    none
  else stdin

/-- The source's `Parse`: build the request from the token walk, fill option
defaults, apply the bootstrap stdin hack, distribute arguments, and default
the encoding.  The pair mirrors the Go `(*cmds.Request, error)` return: the
request component is never nil, and on failure it carries exactly what the
code had stored into the request object by then. -/
def Parse (fs : FS) (input : List String) (stdin : Option Stdin) (root : Cmd) :
    Request × Option ParseErr :=
  match parse input root with
  | .error e => (emptyRequest, some e)
  | .ok pr =>
    let req := requestOfResult root pr
    match fillDefaults root req with
    | .error e => (req, some e)
    | .ok req2 =>
      let stdin2 := bootstrapStdinHack req2 stdin
      match parseArgs fs req2 root stdin2 with
      | .error e => (req2, some e)
      | .ok req3 => (encodingDefault req3, none)

/-! Concrete fixtures used to evaluate the definitions on closed inputs. -/

/-- A filesystem on which every `Lstat` fails (no file arguments resolved). -/
def fs0 : FS :=
  ⟨fun _ => .error "no such file", .ok "/", fun p => .ok p, fun p => p⟩

/-- A filesystem on which every path stats as a directory. -/
def fsDir : FS :=
  ⟨fun _ => .ok ⟨true⟩, .ok "/", fun p => .ok p, fun p => p⟩

/-- A value parser accepting every string. -/
def strParser : String → Except String Value := fun s => .ok (.str s)

/-- A value-bearing option with the two aliases `opt` (canonical) and `o`. -/
def optDual : OptDef := ⟨["opt", "o"], false, strParser, none⟩

/-- A root command declaring only `optDual`. -/
def root1 : Cmd := .mk [] false [] [optDual] none

/-- A subcommand with no children, slots or options. -/
def sub3 : Cmd := .mk [] false [] [] none

/-- A root whose only child is `sub`. -/
def root3 : Cmd := .mk [("sub", sub3)] false [] [] none

/-- A required plain-string slot. -/
def argReq : ArgDef := ⟨"x", .string, true, false, false, false⟩

/-- An optional variadic plain-string slot. -/
def argVar : ArgDef := ⟨"y", .string, false, true, false, false⟩

/-- A command with one required string slot and one optional variadic one. -/
def cmd7 : Cmd := .mk [] false [argReq, argVar] [] none

/-- A resolved request for `cmd7` carrying the single input `a`. -/
def req7a : Request := ⟨[], ["a"], [], some cmd7, some cmd7, none⟩

/-- A resolved request for `cmd7` carrying the inputs `a b c`. -/
def req7b : Request := ⟨[], ["a", "b", "c"], [], some cmd7, some cmd7, none⟩

/-- A usable standard-input handle. -/
def stdinH : Stdin := ⟨"/dev/stdin", false⟩

/-- The boolean `default` option of `bootstrap add`. -/
def optDefault : OptDef := ⟨["default"], true, strParser, none⟩

/-- A model of the `bootstrap add` command: a trailing stdin-capable slot. -/
def cmdAdd : Cmd := .mk [] false [⟨"peer", .string, false, true, true, false⟩] [optDefault] none

/-- A model of the `bootstrap` command. -/
def cmdBootstrap : Cmd := .mk [("add", cmdAdd)] false [] [] none

/-- A root with the `bootstrap add` chain. -/
def rootB : Cmd := .mk [("bootstrap", cmdBootstrap)] false [] [] none

/-- A boolean option with aliases `verbose` and `v`. -/
def optV : OptDef := ⟨["verbose", "v"], true, strParser, none⟩

/-- A boolean option with aliases `quiet` and `q`. -/
def optQ : OptDef := ⟨["quiet", "q"], true, strParser, none⟩

/-- The alias-keyed table of `optV` and `optQ`. -/
def tblC6 : OptTable := optionsTable [optV, optQ]

/-- A required file slot that does not permit directories. -/
def argF : ArgDef := ⟨"f", .file, true, false, false, false⟩

/-- A required file slot that permits directories. -/
def argFR : ArgDef := ⟨"f", .file, true, false, false, true⟩

/-- A request with no options set. -/
def reqPlain : Request := ⟨[], [], [], none, none, none⟩

/-- A request with the runtime recursion option set. -/
def reqRec : Request := ⟨[], [], [(recLong, .bool true)], none, none, none⟩

/-- A command declaring a text encoder. -/
def cmdEncT : Cmd := .mk [] false [] [] (some [textEnc])

/-- A command with a nil encoder map. -/
def cmdEncJ : Cmd := .mk [] false [] [] none

/-- A request whose encoding option holds the empty string, on a command with
a text encoder. -/
def reqEncT : Request := ⟨[], [], [(encLong, .str "")], some cmdEncT, some cmdEncT, none⟩

/-- A request whose encoding option holds the empty string, on a command
without encoders. -/
def reqEncJ : Request := ⟨[], [], [(encLong, .str "")], some cmdEncJ, some cmdEncJ, none⟩

/-- A single required stdin-capable string slot (for the post-loop rule). -/
def argStdin : ArgDef := ⟨"data", .string, true, false, true, false⟩

/-- A command with two required non-variadic string slots. -/
def cmd5 : Cmd := .mk [] false [argReq] [] none

/-- A request for `cmd5` carrying one input too many. -/
def req5 : Request := ⟨[], ["a", "b"], [], some cmd5, some cmd5, none⟩

/-! Helper lemmas shared by the claim theorems. -/

theorem splitkvChars_eq_none {l : List Char} (h : '=' ∉ l) : splitkvChars l = none := by
  induction l with
  | nil => rfl
  | cons c cs ih =>
    have hc : c ≠ '=' := fun hc => h (hc ▸ List.mem_cons_self c cs)
    have hcs : '=' ∉ cs := fun hm => h (List.mem_cons_of_mem c hm)
    rw [show splitkvChars (c :: cs) =
          (if c = '=' then some ([], cs)
           else (splitkvChars cs).map (fun p => (c :: p.1, p.2))) from rfl]
    rw [if_neg hc, ih hcs]
    rfl

theorem splitkv_no_eq {s : String} (h : '=' ∉ s.toList) : splitkv s = (s, "", false) := by
  unfold splitkv
  rw [splitkvChars_eq_none h]

/-- When every character of a combined short token names a boolean flag, the
scan records `true` for each in order and consumes no look-ahead token. -/
theorem shortFlagsLoop_all_bool (optDefs : OptTable) (fullK : String) (rest : List String)
    (chars : List Char)
    (h : ∀ c ∈ chars, ∃ od, optDefs.lookup (String.mk [c]) = some od ∧ od.isBool = true) :
    shortFlagsLoop optDefs fullK rest chars =
      .ok (chars.map (fun c => ⟨String.mk [c], .bool true⟩), false) := by
  induction chars with
  | nil => rfl
  | cons c cs ih =>
    obtain ⟨od, hod, hbool⟩ := h c (List.mem_cons_self c cs)
    have hcs := ih (fun c' hc' => h c' (List.mem_cons_of_mem c hc'))
    unfold shortFlagsLoop
    simp only [hod, hbool, if_true, hcs, List.map_cons]

/-- C1: setting one canonical option through two different long-option aliases
does not fail.  On `--opt=1 --o=2` (both aliases of the canonical option
`opt`) `parse` succeeds and the second assignment silently overwrites the
first, because the duplicate check runs on the raw alias before
canonicalization; in the reverse order `--o=1 --opt=2` (second token using
the canonical name, which is the stored key) the duplicate error does fire,
and the short-option path canonicalizes before checking. -/
theorem c1_alias_overwrite_eval :
    parse ["--opt=1", "--o=2"] root1 = .ok ⟨[], [], [("opt", .str "2")], root1⟩ ∧
    parse ["--o=1", "--opt=2"] root1 = .error (.multipleValues "opt") := by
  exact ⟨rfl, rfl⟩

/-- C2: whenever the token walk reaches a `--` token, all remaining tokens are
appended verbatim to the positional arguments (whatever their shape) and the
walk stops with the state accumulated so far: no option or subcommand parsing
happens after it, and the tokens before it were parsed by the ordinary
recursion. -/
theorem c2_doubledash_verbatim (root cmd : Cmd) (optDefs : OptTable)
    (fuel : Nat) (rest path args : List String) (opts : OptMap) :
    parseGo root (fuel + 1) ("--" :: rest) cmd optDefs path args opts =
      .ok ⟨path, args ++ rest, opts, cmd⟩ := by
  rfl

/-- C7: for a command with one required plain-string slot and one optional
variadic plain-string slot and no stdin handle, distributing `["a"]` yields
the positional sequence `["a"]` (the variadic slot receives nothing) and
distributing `["a", "b", "c"]` yields `["a", "b", "c"]` (the variadic slot
absorbs `b` and `c`); in both cases no error is returned and no file map is
attached. -/
theorem c7_variadic_distribution :
    parseArgs fs0 req7a cmd7 none = .ok ⟨[], ["a"], [], some cmd7, some cmd7, none⟩ ∧
    parseArgs fs0 req7b cmd7 none = .ok ⟨[], ["a", "b", "c"], [], some cmd7, some cmd7, none⟩ := by
  exact ⟨rfl, rfl⟩

/-- C6: boolean options never consume a following token as their value.  A
long token `--name` naming a boolean option yields the value `true` without
the look-ahead consumption flag, and a combined short token all of whose
characters name boolean flags records `true` for each within the same token,
again without consuming the next command-line token. -/
theorem c6_bool_never_consumes :
    (∀ (name : String) (rest : List String) (optDefs : OptTable) (od : OptDef),
        '=' ∉ name.toList → optDefs.lookup name = some od → od.isBool = true →
        parseLongOpt name rest optDefs = .ok (name, .bool true, false)) ∧
    (∀ (body : String) (rest : List String) (optDefs : OptTable),
        '=' ∉ body.toList →
        (∀ c ∈ body.toList, ∃ od, optDefs.lookup (String.mk [c]) = some od ∧ od.isBool = true) →
        parseShortOpts body rest optDefs =
          .ok (body.toList.map (fun c => ⟨String.mk [c], .bool true⟩), false)) := by
  constructor
  · intro name rest optDefs od hne hod hbool
    unfold parseLongOpt
    rw [splitkv_no_eq hne]
    simp only [hod, hbool, if_true]
  · intro body rest optDefs hne hall
    unfold parseShortOpts
    rw [splitkv_no_eq hne]
    exact shortFlagsLoop_all_bool optDefs body rest body.toList hall

/-- C6 witness: `--verbose` with a following token leaves it unconsumed, and
`-vq` records both boolean flags from within the token. -/
theorem c6_bool_never_consumes_witness :
    parseLongOpt "verbose" ["next"] tblC6 = .ok ("verbose", .bool true, false) ∧
    parseShortOpts "vq" ["next"] tblC6 =
      .ok ([⟨"v", .bool true⟩, ⟨"q", .bool true⟩], false) := by
  constructor
  · exact c6_bool_never_consumes.1 "verbose" ["next"] tblC6 optV (by decide) rfl rfl
  · refine c6_bool_never_consumes.2 "vq" ["next"] tblC6 (by decide) ?_
    intro c hc
    have hlist : ("vq".toList : List Char) = ['v', 'q'] := rfl
    rw [hlist] at hc
    rcases hc with _ | ⟨_, hc⟩
    · exact ⟨optV, rfl, rfl⟩
    · rcases hc with _ | ⟨_, hc⟩
      · exact ⟨optQ, rfl, rfl⟩
      · cases hc

/-- Filling defaults only touches the option map of the request. -/
theorem fillDefaults_fields (root : Cmd) (req req' : Request)
    (h : fillDefaults root req = .ok req') :
    req'.path = req.path ∧ req'.cmd = req.cmd ∧ req'.root = req.root ∧
    req'.arguments = req.arguments ∧ req'.files = req.files := by
  unfold fillDefaults at h
  cases hg : Cmd.getOptions root req.path with
  | none => rw [hg] at h; cases h
  | some tbl => rw [hg] at h; cases h; exact ⟨rfl, rfl, rfl, rfl, rfl⟩

/-- C3 counterexample: on `sub --bogus` the token walk resolves the path
`["sub"]` before failing on the unknown option (third conjunct: the prefix
parses to that path), yet `Parse` returns the empty request — the accumulated
path, options and arguments are discarded, not carried on the returned
request. -/
theorem c3_discard_counterexample :
    (Parse fs0 ["sub", "--bogus"] none root3).2 = some (.unknownOption "bogus") ∧
    (Parse fs0 ["sub", "--bogus"] none root3).1 = emptyRequest ∧
    (Parse fs0 ["sub", "--bogus"] none root3).1.path ≠ ["sub"] ∧
    parse ["sub"] root3 = .ok ⟨["sub"], [], [], sub3⟩ := by
  refine ⟨rfl, rfl, ?_, rfl⟩
  decide

/-- C3 (amended): `Parse` always returns a request object alongside any error,
but on errors raised during the token walk the request is the fresh empty one
(`parse` stores its accumulated state only on success), while on errors of the
later stages (default filling, argument distribution) the request carries the
path, resolved command, root and raw positional arguments of the successful
token walk. -/
theorem c3_request_on_error (fs : FS) (input : List String) (stdin : Option Stdin)
    (root : Cmd) (e : ParseErr)
    (herr : (Parse fs input stdin root).2 = some e) :
    (∀ e', parse input root = .error e' → (Parse fs input stdin root).1 = emptyRequest) ∧
    (∀ pr, parse input root = .ok pr →
        (Parse fs input stdin root).1.path = pr.path ∧
        (Parse fs input stdin root).1.cmd = some pr.cmd ∧
        (Parse fs input stdin root).1.root = some root ∧
        (Parse fs input stdin root).1.arguments = pr.args) := by
  constructor
  · intro e' hp
    unfold Parse
    rw [hp]
  · intro pr hp
    simp only [Parse, hp] at herr ⊢
    cases hf : fillDefaults root (requestOfResult root pr) with
    | error e2 =>
      simp only [hf]
      exact ⟨rfl, rfl, rfl, rfl⟩
    | ok req2 =>
      obtain ⟨h1, h2, h3, h4, _⟩ := fillDefaults_fields root (requestOfResult root pr) req2 hf
      simp only [hf] at herr ⊢
      cases hpa : parseArgs fs req2 root (bootstrapStdinHack req2 stdin) with
      | error e3 =>
        simp only [hpa]
        exact ⟨h1, h2, h3, h4⟩
      | ok req3 =>
        rw [hpa] at herr
        simp at herr

/-- C3 witness: applying the amended theorem at the counterexample input — the
request returned with the unknown-option error is the empty request. -/
theorem c3_request_on_error_witness :
    (Parse fs0 ["sub", "--bogus"] none root3).1 = emptyRequest :=
  (c3_request_on_error fs0 ["sub", "--bogus"] none root3 (.unknownOption "bogus") rfl).1
    (.unknownOption "bogus") rfl

/-- C4: after the distribution loop, if exactly one slot definition remains
unconsidered (`iArgDef + 1` equals the slot count, so it is the last slot),
that slot supports standard input and a standard-input handle is still
available, then the post-loop adjustment steps past it and the final
required-argument check finds nothing missing — no "argument required" error
is raised, and no token was consumed for it. -/
theorem c4_trailing_stdin_slot (argDefs : List ArgDef) (stdin : Option Stdin)
    (iArgDef : Nat) (a : ArgDef)
    (hlen : iArgDef + 1 = argDefs.length)
    (hidx : argDefs[iArgDef]? = some a)
    (hsupp : a.supportsStdin = true)
    (hstdin : stdin.isSome = true) :
    stdinPostLoopAdjust argDefs stdin iArgDef = iArgDef + 1 ∧
    missingRequired argDefs (stdinPostLoopAdjust argDefs stdin iArgDef) = none := by
  have h1 : stdinPostLoopAdjust argDefs stdin iArgDef = iArgDef + 1 := by
    unfold stdinPostLoopAdjust
    rw [if_pos ⟨hlen, hstdin⟩]
    simp only [hidx, hsupp, if_true]
  refine ⟨h1, ?_⟩
  rw [h1]
  unfold missingRequired
  rw [hlen, List.drop_length]
  rfl

/-- C4 witness: a single required stdin-capable slot with a live handle after
the loop is treated as satisfied. -/
theorem c4_trailing_stdin_slot_witness :
    stdinPostLoopAdjust [argStdin] (some stdinH) 0 = 1 ∧
    missingRequired [argStdin] (stdinPostLoopAdjust [argStdin] (some stdinH) 0) = none :=
  c4_trailing_stdin_slot [argStdin] (some stdinH) 0 argStdin rfl rfl rfl rfl

/-- C5: when the positional tokens outnumber the declared slots and the last
slot is not variadic (or there are no slots), `parseArgs` rejects immediately
with the suggestions condition carrying the offending tokens and the root
tree, for every filesystem and stdin handle — so before any slot is filled or
file resolved. -/
theorem c5_too_many_args (fs : FS) (req : Request) (root cmd : Cmd) (stdin : Option Stdin)
    (hcmd : req.cmd = some cmd)
    (hvar : cmd.arguments.isEmpty = true ∨ lastVariadic cmd.arguments = false)
    (hlen : req.arguments.length > cmd.arguments.length) :
    parseArgs fs req root stdin = .error (.suggestions req.arguments root) := by
  unfold parseArgs
  have hnv : (cmd.arguments.isEmpty || !lastVariadic cmd.arguments) = true := by
    rcases hvar with h | h <;> simp [h]
  simp only [hcmd]
  unfold parseArgsCmd
  rw [if_pos ⟨hnv, hlen⟩]

/-- C5 witness: two tokens against a single non-variadic slot are rejected
with the suggestions condition. -/
theorem c5_too_many_args_witness :
    parseArgs fsDir req5 cmd5 (some stdinH) = .error (.suggestions ["a", "b"] cmd5) :=
  c5_too_many_args fsDir req5 cmd5 cmd5 (some stdinH) rfl (Or.inr rfl) (by decide)

/-- C8: a file-slot path whose `Lstat` (not following symlinks) reports a
directory is rejected with the directory-not-supported error when the slot's
recursive flag is off; rejected with the use-the-recursive-flag error when the
slot permits directories but the runtime recursion option is off; and resolved
to a serial node over the directory stat (a directory tree) when both are
on. -/
theorem c8_directory_policy (fs : FS) (fpath : String) (argDef : ArgDef) (req : Request)
    (hidden : Bool) (stat : Stat)
    (hstat : fs.lstat fpath = .ok stat) (hdir : stat.isDir = true) :
    (argDef.recursive = false →
      appendFile fs fpath argDef (isRecursive req) hidden =
        .error (.dirNotSupported fpath argDef.name)) ∧
    (argDef.recursive = true → isRecursive req = false →
      appendFile fs fpath argDef (isRecursive req) hidden = .error (.notRecursive fpath)) ∧
    (argDef.recursive = true → isRecursive req = true →
      appendFile fs fpath argDef (isRecursive req) hidden = .ok (.serial fpath hidden stat)) := by
  unfold appendFile dirNotSupportedErr
  rw [hstat]
  refine ⟨fun hrec => ?_, fun hrec hopt => ?_, fun hrec hopt => ?_⟩
  · simp [hdir, hrec]
  · simp [hdir, hrec, hopt]
  · simp [hdir, hrec, hopt]

/-- C8 witness: the three directory outcomes at a concrete directory path,
with the runtime recursion option read off the request options. -/
theorem c8_directory_policy_witness :
    appendFile fsDir "d" argF (isRecursive reqPlain) false =
      .error (.dirNotSupported "d" "f") ∧
    appendFile fsDir "d" argFR (isRecursive reqPlain) false = .error (.notRecursive "d") ∧
    appendFile fsDir "d" argFR (isRecursive reqRec) false = .ok (.serial "d" false ⟨true⟩) :=
  ⟨(c8_directory_policy fsDir "d" argF reqPlain false ⟨true⟩ rfl rfl).1 rfl,
   (c8_directory_policy fsDir "d" argFR reqPlain false ⟨true⟩ rfl rfl).2.1 rfl rfl,
   (c8_directory_policy fsDir "d" argFR reqRec false ⟨true⟩ rfl rfl).2.2 rfl rfl⟩

/-- C9: whenever the token walk and default filling produce a request whose
path is `bootstrap add` with the `default` option true, or `bootstrap rm` with
the `all` option true, `Parse` discards the standard-input handle before
argument distribution: the result is identical to a `Parse` run with no
standard input at all, so stdin never fills an argument slot. -/
theorem c9_bootstrap_stdin_discard (fs : FS) (input : List String) (stdin : Option Stdin)
    (root : Cmd) (pr : ParseResult) (req1 : Request)
    (hp : parse input root = .ok pr)
    (hf : fillDefaults root (requestOfResult root pr) = .ok req1)
    (hcond :
      (req1.path = ["bootstrap", "add"] ∧ req1.options.lookup "default" = some (.bool true)) ∨
      (req1.path = ["bootstrap", "rm"] ∧ req1.options.lookup "all" = some (.bool true))) :
    Parse fs input stdin root = Parse fs input none root := by
  have hhack : ∀ s : Option Stdin, bootstrapStdinHack req1 s = none := by
    intro s
    unfold bootstrapStdinHack
    rw [if_pos hcond]
  simp only [Parse, hp, hf]
  rw [hhack stdin, hhack none]

/-- C9 witness: `bootstrap add --default` parses the same with and without a
live standard-input handle (with the handle kept, the stdin-capable trailing
slot of `add` would otherwise be filled from it). -/
theorem c9_bootstrap_stdin_discard_witness :
    Parse fs0 ["bootstrap", "add", "--default"] (some stdinH) rootB =
      Parse fs0 ["bootstrap", "add", "--default"] none rootB :=
  c9_bootstrap_stdin_discard fs0 ["bootstrap", "add", "--default"] (some stdinH) rootB
    ⟨["bootstrap", "add"], [], [("default", .bool true)], cmdAdd⟩
    (requestOfResult rootB ⟨["bootstrap", "add"], [], [("default", .bool true)], cmdAdd⟩)
    rfl rfl (Or.inl ⟨rfl, rfl⟩)

/-- C10: the encoding-defaulting step at the end of a successful `Parse`
replaces an encoding option holding the empty string with the text encoding
when the resolved command declares a text encoder and with the JSON encoding
otherwise, and leaves the request untouched when the encoding option is
absent entirely. -/
theorem c10_encoding_default (req : Request) :
    (req.options.lookup encLong = some (.str "") → req.hasTextEncoder = true →
      encodingDefault req =
        { req with options := assocInsert req.options encLong (.str textEnc) }) ∧
    (req.options.lookup encLong = some (.str "") → req.hasTextEncoder = false →
      encodingDefault req =
        { req with options := assocInsert req.options encLong (.str jsonEnc) }) ∧
    (req.options.lookup encLong = none → encodingDefault req = req) := by
  refine ⟨fun he ht => ?_, fun he ht => ?_, fun he => ?_⟩
  · unfold encodingDefault
    simp [he, ht]
  · unfold encodingDefault
    simp [he, ht]
  · unfold encodingDefault
    simp [he]

/-- C10 witness: the three encoding outcomes at concrete requests — empty
encoding with a text encoder, empty encoding without one, and an absent
encoding option. -/
theorem c10_encoding_default_witness :
    encodingDefault reqEncT =
      { reqEncT with options := assocInsert reqEncT.options encLong (.str textEnc) } ∧
    encodingDefault reqEncJ =
      { reqEncJ with options := assocInsert reqEncJ.options encLong (.str jsonEnc) } ∧
    encodingDefault reqPlain = reqPlain :=
  ⟨(c10_encoding_default reqEncT).1 rfl rfl,
   (c10_encoding_default reqEncJ).2.1 rfl rfl,
   (c10_encoding_default reqPlain).2.2 rfl⟩

end BtfsCli
